import Mathlib

/-!
Shallow embedding of `b4/ty.py` (the b4 "thanks" subcommand): the
patch/pull-request matching engine and the file-backed tracked-item
lifecycle store.

The git backend (`b4.git_run_command`, `b4.git_get_command_lines`, ...) is
modelled as a structure of pure query functions (`GitBackend`): each field
is the observable output of one git invocation the Python code performs.
Output-order conventions of git are recorded at each field: `git log` and
`git rev-list` emit commits in reverse chronological order (newest first).

Python data structures are modelled as follows: `dict` becomes an
insertion-ordered association list with overwrite-on-reinsert
(`dictInsert` / `mapLookup`); uncaught exceptions (IndexError/ValueError,
`sys.exit` is separate) become `Option`/`Except` failure values; `sys.exit`
becomes an explicit exit code; the data directory and output directory
become lists of file names (in ascending-mtime order, which `os.rename`
preserves).
-/

namespace B4Ty

/-! ## Python / pathlib primitives -/

/-- Python `str.split(maxsplit=1)`: strip leading whitespace, split at the
first whitespace run. Used for `commit_id, subject = line.split(maxsplit=1)`. -/
def splitMax1 (s : String) : List String :=
  let l := s.data.dropWhile Char.isWhitespace
  let w := l.takeWhile (fun c => !c.isWhitespace)
  let rest := (l.dropWhile (fun c => !c.isWhitespace)).dropWhile Char.isWhitespace
  if w.isEmpty then []
  else if rest.isEmpty then [String.mk w]
  else [String.mk w, String.mk rest]

/-- Accumulator pass of `pySplitWs`: `acc` holds the current word,
reversed. -/
def splitWsAux : List Char → List Char → List String
  | [], acc => if acc.isEmpty then [] else [String.mk acc.reverse]
  | c :: rest, acc =>
    if c.isWhitespace then
      if acc.isEmpty then splitWsAux rest []
      else String.mk acc.reverse :: splitWsAux rest []
    else splitWsAux rest (c :: acc)

/-- Python `str.split()` with no arguments: split on whitespace runs,
discarding empty pieces. Used for `chunks = out.split()`. -/
def pySplitWs (s : String) : List String :=
  splitWsAux s.data []

/-- Python `str.strip()`: drop leading and trailing whitespace. -/
def pyStrip (s : String) : String :=
  String.mk (((s.data.dropWhile Char.isWhitespace).reverse.dropWhile
    Char.isWhitespace).reverse)

/-- Python `str.lower()` (over the ASCII range relevant here). -/
def pyLower (s : String) : String :=
  String.mk (s.data.map Char.toLower)

/-- The tail of the character list starting at its last dot, if any. -/
def lastDotSuffix : List Char → Option (List Char)
  | [] => none
  | c :: rest =>
    match lastDotSuffix rest with
    | some s => some s
    | none => if c = '.' then some (c :: rest) else none

/-- Python `pathlib.Path(name).suffix`: the extension from the last dot,
empty when the dot is the first character or the last character. -/
def pathSuffix (name : String) : String :=
  match lastDotSuffix name.data with
  | some s => if s.length < name.data.length ∧ 1 < s.length then String.mk s else ""
  | none => ""

/-- Python `pathlib.Path(name).stem`: the name with `pathSuffix` removed. -/
def pathStem (name : String) : String :=
  match lastDotSuffix name.data with
  | some s =>
    if s.length < name.data.length ∧ 1 < s.length then
      String.mk (name.data.take (name.data.length - s.length))
    else name
  | none => name

/-- Python `int(s)` on a string: surrounding whitespace stripped,
optional sign, decimal digits with underscores allowed between digits;
`none` models `ValueError`. -/
def pyInt (s : String) : Option Int :=
  let t := (pyStrip s).data
  let neg := t.head? = some '-'
  let core := if t.head? = some '-' ∨ t.head? = some '+' then t.tail else t
  if core.isEmpty then none
  else if core.all (fun c => c.isDigit ∨ c = '_') ∧
      core.head? ≠ some '_' ∧ core.getLast? ≠ some '_' ∧
      ¬ (core.zip core.tail).any (fun p => p.1 = '_' ∧ p.2 = '_') then
    let digits := core.filter (fun c => c ≠ '_')
    let mag : Int := digits.foldl (fun n c => n * 10 + ((c.toNat : Int) - 48)) 0
    some (if neg then -mag else mag)
  else none

/-- Python list subscripting `l[i]` with an `int` index: negative indices
wrap from the end; `none` models `IndexError`. -/
def pyIndex (l : List α) (i : Int) : Option α :=
  if 0 ≤ i then l.get? i.toNat
  else if 0 ≤ i + l.length then l.get? (i + l.length).toNat
  else none

/-- Python `re.sub(r'\W', '_', s)`: replace every non-word character. -/
def wToUnderscore (s : String) : String :=
  String.mk (s.data.map (fun c => if c.isAlphanum ∨ c = '_' then c else '_'))

/-- Python `re.sub(r'_+', '_', s)`: collapse runs of underscores. -/
def collapseUnderscores (s : String) : String :=
  String.mk (s.data.foldl
    (fun (acc : List Char × Bool) c =>
      if c = '_' then (if acc.2 then acc else (acc.1 ++ ['_'], true))
      else (acc.1 ++ [c], false))
    ([], false)).1

/-! ## Python dict (insertion-ordered, overwrite on reinsert) -/

/-- A patch-id index entry: `(commit_id, subject)`. -/
abbrev CommitEntry := String × String

/-- `MY_COMMITS`: a Python dict from patch-id to `(commit_id, subject)`,
modelled as an insertion-ordered association list with unique keys. -/
abbrev CommitMap := List (String × CommitEntry)

/-- Python `d[k] = v`: overwrite in place if the key exists, else append. -/
def dictInsert : CommitMap → String → CommitEntry → CommitMap
  | [], k, v => [(k, v)]
  | kv :: rest, k, v =>
    if kv.1 = k then (k, v) :: rest else kv :: dictInsert rest k v

/-- Python `d[k]` / `k in d` combined: `some v` when the key is present. -/
def mapLookup : CommitMap → String → Option CommitEntry
  | [], _ => none
  | kv :: rest, k => if kv.1 = k then some kv.2 else mapLookup rest k

/-! ## The git backend interface -/

/-- The observable outputs of the git invocations `ty.py` performs.
Order conventions (facts about git recorded here because the code depends
on them): `ancestryPath` is the line output of
`git rev-list <commit>.. --ancestry-path`, newest commit first, so its
last line is the oldest commit on the path; `logLines` is the output of
`git log --committer <c> --no-abbrev --oneline --since <s> <branch>`,
newest commit first; `showAuthorLines` is the line output of
`git show --format=%ae <commit>`, whose first line is the author email
(any further lines are the diff text). -/
structure GitBackend where
  commitExists : String → Bool
  branchContains : String → List String
  ancestryPath : String → List String
  showAuthorLines : String → List String
  logLines : String → String → String → List String
  revDiff : String → Nat × String
  patchIdRun : String → Nat × String
  currentBranch : Nat × String
  branchList : List String
  userName : String
  userEmail : String
  hasUserEmail : Bool

/-! ## Matching engine (`git_get_merge_id`, `git_get_rev_diff`,
`auto_locate_pr`, `get_all_commits`, `auto_locate_series`) -/

/-- `git_get_merge_id`: run `rev-list <commit>.. --ancestry-path` and
return the last output line (`lines[-1]`), or `None` when there is no
output. Since rev-list lists newest first, the last line is the oldest
commit on the ancestry path. -/
def git_get_merge_id (g : GitBackend) (commit_id : String) : Option String :=
  let lines := g.ancestryPath commit_id
  if lines.length = 0 then none else lines.getLast?

/-- `git_get_rev_diff`: `git diff <rev>~..<rev>`, returning (ecode, out). -/
def git_get_rev_diff (g : GitBackend) (rev : String) : Nat × String :=
  g.revDiff rev

/-- `auto_locate_pr`: match a tracked pull request against a branch.
`none` models returning `None` (no match). -/
def auto_locate_pr (g : GitBackend) (pr_commit_id : String) (branch : String) :
    Option String :=
  if g.commitExists pr_commit_id then
    let onbranches := g.branchContains pr_commit_id
    if onbranches.length = 0 then none
    else if branch ∈ onbranches then
      match git_get_merge_id g pr_commit_id with
      | none => none
      | some merge_commit_id =>
        let out := g.showAuthorLines merge_commit_id
        if out.length = 0 then none
        else if g.userEmail ∈ out then some merge_commit_id
        else none
    else none
  else none

/-- The per-commit patch-id pipeline inside `get_all_commits`: diff the
commit against its parent, pipe the diff through `git patch-id --stable`,
split the output on whitespace and take `chunks[0]`. Both exit codes are
bound and ignored, exactly as in the source. `none` models the uncaught
`IndexError` that `chunks[0]` raises when the output is empty. -/
def commitPatchId (g : GitBackend) (commit_id : String) : Option String :=
  let dr := git_get_rev_diff g commit_id
  let pr := g.patchIdRun dr.2
  let chunks := pySplitWs pr.2
  chunks.head?

/-- One iteration of the `get_all_commits` loop over a log line:
unpack `commit_id, subject = line.split(maxsplit=1)` (a `ValueError`
crash if the line does not split in two), compute the patch-id and insert
it into the dict. -/
def index_step (g : GitBackend) (m : CommitMap) (line : String) :
    Option CommitMap :=
  match splitMax1 line with
  | [commit_id, subject] =>
    match commitPatchId g commit_id with
    | some pid => some (dictInsert m pid (commit_id, subject))
    | none => none
  | _ => none

/-- `get_all_commits`: the memoized patch-id index. `myCommits` is the
`MY_COMMITS` module global threaded explicitly; the result is
`some (return value, new MY_COMMITS)`, and `none` models an uncaught
exception inside the loop. The memoization check returns the cached dict
without looking at any argument. -/
def get_all_commits (g : GitBackend) (myCommits : Option CommitMap)
    (branch since : String) (committer : Option String) :
    Option (CommitMap × CommitMap) :=
  match myCommits with
  | some m => some (m, m)
  | none =>
    let committer := match committer with
      | none => g.userEmail
      | some c => c
    let lines := g.logLines committer since branch
    if lines.length = 0 then some ([], [])
    else
      match lines.foldlM (index_step g) [] with
      | some m => some (m, m)
      | none => none

/-- `auto_locate_series`: look every `(label, patch-id)` pair of the
tracked series up in the commit index; return the resolved
`(commit_id, subject)` list only when all of them resolved, else `None`.
The returned `CommitMap` is the updated `MY_COMMITS` global; the outer
`none` models a crash inside `get_all_commits`. -/
def auto_locate_series (g : GitBackend) (myCommits : Option CommitMap)
    (patches : List (String × String)) (branch since : String) :
    Option (Option (List CommitEntry) × CommitMap) :=
  match get_all_commits g myCommits branch since none with
  | none => none
  | some (commits, newCache) =>
    let found := patches.filterMap (fun patch => mapLookup commits patch.2)
    if found.length = patches.length then some (some found, newCache)
    else some (none, newCache)

/-! ## Tracked-item store and orchestrator
(`list_tracked`, `send_messages`, `send_selected`, `discard_selected`,
`check_stale_thanks`, `auto_thankanator`, `main`) -/

/-- The body of one tracked record file: the JSON fields the core reads.
`patches` is the ordered `(label, patch-id)` list of a series record.
Provenance fields used only by the out-of-scope message templating
(sentdate, msgid, references, to, cc) are not modelled. -/
structure TrackData where
  subject : String
  fromname : String
  fromemail : String
  patches : List (String × String)
  deriving DecidableEq

/-- One tracked item as produced by `list_tracked`: the record body plus
the fields `list_tracked` attaches (`myname`/`myemail` from the user
config, `trackfile`, and `pr_commit_id` from the stem of a `.pr` file). -/
structure TrackedItem where
  subject : String
  fromname : String
  fromemail : String
  patches : List (String × String)
  myname : String
  myemail : String
  trackfile : String
  prCommitId : Option String
  deriving DecidableEq

/-- The filesystem state the orchestrator mutates: the output directory
(file names only; artifact bodies are produced by the out-of-scope
composer) and the b4 data directory (file name and record body), each in
ascending-mtime order. A missing output directory is the empty list. -/
structure TyState where
  outdir : List String
  datadir : List (String × TrackData)
  deriving DecidableEq

/-- `os.rename(old, new)` on a directory listing: renaming preserves the
file's mtime, hence its position in the mtime-ordered listing. -/
def fsRename (files : List (String × TrackData)) (old new : String) :
    List (String × TrackData) :=
  files.map (fun f => if f.1 = old then (new, f.2) else f)

/-- Writing a file: overwrite in place if present, else append. -/
def fsWrite (files : List String) (name : String) : List String :=
  if name ∈ files then files else files ++ [name]

/-- `list_tracked`: walk the data directory in mtime order, keep files
with suffix `.pr` or `.am`, parse each record and attach the user config
and the track file name; `.pr` records get `pr_commit_id` from the stem. -/
def list_tracked (uname uemail : String) (datadir : List (String × TrackData)) :
    List TrackedItem :=
  datadir.filterMap (fun f =>
    if pathSuffix f.1 = ".pr" ∨ pathSuffix f.1 = ".am" then
      some (TrackedItem.mk f.2.subject f.2.fromname f.2.fromemail f.2.patches
        uname uemail f.1
        (if pathSuffix f.1 = ".pr" then some (pathStem f.1) else none))
    else none)

/-- The artifact slug: `re.sub` normalization of sender email and subject,
lower-cased, joined with an underscore and collapsed. -/
def mkSlug (fromemail subject : String) : String :=
  let slug_from := wToUnderscore fromemail
  let slug_subj := wToUnderscore subject
  let slug := pyLower slug_from ++ "_" ++ pyLower slug_subj
  collapseUnderscores slug

/-- `send_messages`: for each listed item write its `.thanks` artifact to
the output directory (the body comes from the out-of-scope composer) and
rename its track file to `<name>.sent`. -/
def send_messages (listing : List TrackedItem) (st : TyState) : TyState :=
  listing.foldl
    (fun s item =>
      let outfile := mkSlug item.fromemail item.subject ++ ".thanks"
      TyState.mk (fsWrite s.outdir outfile)
        (fsRename s.datadir item.trackfile (item.trackfile ++ ".sent")))
    st

/-- The resolution of one user-supplied selection entry:
`index = int(num) - 1; tracked[index]`. `none` models the `ValueError` or
`IndexError` that makes the selection loop exit. -/
def selResolve (tracked : List TrackedItem) (num : String) : Option TrackedItem :=
  match pyInt num with
  | none => none
  | some v => pyIndex tracked (v - 1)

/-- The selection loop of `send_selected` / `discard_selected`: build the
listing entry by entry; the first failing entry aborts the whole loop
(`sys.exit(1)` in the source). -/
def buildListing (tracked : List TrackedItem) (sel : List String) :
    Option (List TrackedItem) :=
  sel.foldlM
    (fun acc num =>
      match selResolve tracked num with
      | none => none
      | some item => some (acc ++ [item]))
    []

/-- `send_selected`: `.error (code, st)` models `sys.exit(code)` with the
store in state `st`; `.ok st` is a normal return to `main`. -/
def send_selected (uname uemail : String) (st : TyState) (sel : List String) :
    Except (Nat × TyState) TyState :=
  let tracked := list_tracked uname uemail st.datadir
  if tracked.length = 0 then Except.error (0, st)
  else
    match buildListing tracked sel with
    | none => Except.error (1, st)
    | some listing =>
      if listing.length = 0 then Except.error (0, st)
      else Except.ok (send_messages listing st)

/-- `discard_selected`: always exits; result is (final state, exit code).
The special entry `_all` selects every tracked item without validating
any other entry. -/
def discard_selected (uname uemail : String) (st : TyState) (sel : List String) :
    TyState × Nat :=
  let tracked := list_tracked uname uemail st.datadir
  if tracked.length = 0 then (st, 0)
  else
    let listing? := if "_all" ∈ sel then some tracked else buildListing tracked sel
    match listing? with
    | none => (st, 1)
    | some listing =>
      if listing.length = 0 then (st, 0)
      else
        (TyState.mk st.outdir
          (listing.foldl
            (fun d item => fsRename d item.trackfile (item.trackfile ++ ".discarded"))
            st.datadir), 0)

/-- `check_stale_thanks`: `some 1` models `sys.exit(1)` on the first
`.thanks` entry found in the output directory; `none` is a normal return. -/
def check_stale_thanks (outdirFiles : List String) : Option Nat :=
  if outdirFiles.any (fun f => pathSuffix f = ".thanks") then some 1 else none

/-- The matching loop of `auto_thankanator`: run the locator over each
tracked item, keeping the matched ones in listing order and threading the
`MY_COMMITS` global through the series matcher. The merge commit id that
the source attaches to a matched pull request (`merge_commit_id`) feeds
only the out-of-scope reply template and is not stored here. `none`
models a crash inside `get_all_commits`. -/
def locate_loop (g : GitBackend) (wantbranch since : String) :
    Option CommitMap → List TrackedItem →
    Option (List TrackedItem × Option CommitMap)
  | cache, [] => some ([], cache)
  | cache, item :: rest =>
    match item.prCommitId with
    | some pr =>
      match auto_locate_pr g pr wantbranch with
      | none => locate_loop g wantbranch since cache rest
      | some _merge_commit_id =>
        match locate_loop g wantbranch since cache rest with
        | none => none
        | some (l, c) => some (item :: l, c)
    | none =>
      match auto_locate_series g cache item.patches wantbranch since with
      | none => none
      | some (res, cacheNew) =>
        match res with
        | none => locate_loop g wantbranch since (some cacheNew) rest
        | some _patches =>
          match locate_loop g wantbranch since (some cacheNew) rest with
          | none => none
          | some (l, c) => some (item :: l, c)

/-- `auto_thankanator`: resolve the wanted branch, list the tracked items,
run the locator and hand matched items to `send_messages`; every path
ends in `sys.exit`, so the result is `some (exit code, final state)`
(`none` models a crash inside the series matcher). -/
def auto_thankanator (g : GitBackend) (st : TyState) (branchArg : Option String)
    (since : String) : Option (Nat × TyState) :=
  let wantbranch? : Except Nat String :=
    match branchArg with
    | none =>
      if g.currentBranch.1 > 0 then Except.error 1
      else Except.ok (pyStrip g.currentBranch.2)
    | some b =>
      if g.branchList.length = 0 then Except.error 1
      else if b ∈ g.branchList then Except.ok b
      else Except.error 1
  match wantbranch? with
  | Except.error c => some (c, st)
  | Except.ok wantbranch =>
    let tracked := list_tracked g.userName g.userEmail st.datadir
    if tracked.length = 0 then some (0, st)
    else
      match locate_loop g wantbranch since none tracked with
      | none => none
      | some (applied, _cache) =>
        if applied.length = 0 then some (0, st)
        else some (0, send_messages applied st)

/-- `main`: dispatch on the command arguments. `check_stale_thanks` is
invoked exactly where the source invokes it: after `auto_thankanator`
(unreachable, since `auto_thankanator` always exits) and after
`send_selected` returns. A fall-through return is exit code 0. -/
def ty_main (g : GitBackend) (st : TyState) (auto : Bool)
    (send discard : List String) (branchArg : Option String) (since : String) :
    Option (Nat × TyState) :=
  if ¬ g.hasUserEmail then some (1, st)
  else if auto then
    match auto_thankanator g st branchArg since with
    | none => none
    | some (c, st1) => some (c, st1)
  else if send ≠ [] then
    match send_selected g.userName g.userEmail st send with
    | Except.error (c, st1) => some (c, st1)
    | Except.ok st1 =>
      match check_stale_thanks st1.outdir with
      | some c => some (c, st1)
      | none => some (0, st1)
  else if discard ≠ [] then
    some ((discard_selected g.userName g.userEmail st discard).2,
      (discard_selected g.userName g.userEmail st discard).1)
  else
    let tracked := list_tracked g.userName g.userEmail st.datadir
    if tracked.length = 0 then some (0, st) else some (0, st)

/-! ## Definitions taken from the specification text (for refinement
comparisons against the source translation above) -/

/-- Modelled from the spec (claim C4): "walk the ancestry-path from
`prCommitId` to the branch tip and take the *last* commit on that path
(the merge point closest to the tip)". The walking order from the PR
commit toward the tip is oldest first, i.e. the reverse of the rev-list
output, so the spec picks the last element of that reversed path. -/
def claimed_merge_commit (g : GitBackend) (commit_id : String) : Option String :=
  ((g.ancestryPath commit_id).reverse).getLast?

/-- The `(commit_id, subject)` of one log line, provided the line parses
and that commit's patch-id is `pid`. Helper for stating which commits of
the log window carry a given identity. -/
def lineEntry (g : GitBackend) (pid : String) (line : String) : Option CommitEntry :=
  match splitMax1 line with
  | [commit_id, subject] =>
    if commitPatchId g commit_id = some pid then some (commit_id, subject) else none
  | _ => none

/-- Modelled from the spec (claim C3): "entries with colliding identities
are overwritten by the most recent commit". Since the log output is
newest first, the most recent commit with identity `pid` is the first
matching line. -/
def spec_retained_commit (g : GitBackend) (committer since branch pid : String) :
    Option CommitEntry :=
  (g.logLines committer since branch).findSome? (lineEntry g pid)

/-- Modelled from the spec (claim C7): a user-supplied selection entry is
valid when it is numeric and names one of the items `1..n` shown by
`write_tracked`. -/
def specValidSelB (n : Nat) (num : String) : Bool :=
  match pyInt num with
  | some v => 1 ≤ v ∧ v ≤ (n : Int)
  | none => false

/-! ## Transition sequences over the store (for the lifecycle claims) -/

/-- The two terminal markers a transition appends to a track file name. -/
inductive Marker where
  | sent
  | discarded
  deriving DecidableEq

/-- The appended suffix: `os.rename(f, f + '.sent')` in `send_messages`,
`os.rename(f, f + '.discarded')` in `discard_selected`. -/
def markerStr : Marker → String
  | Marker.sent => ".sent"
  | Marker.discarded => ".discarded"

/-- One lifecycle transition: rename the backing record. -/
def applyTransition (fs : List (String × TrackData)) (name : String)
    (m : Marker) : List (String × TrackData) :=
  fsRename fs name (name ++ markerStr m)

/-- A sequence of transitions applied in order. -/
def applyOps (fs : List (String × TrackData)) (ops : List (String × Marker)) :
    List (String × TrackData) :=
  ops.foldl (fun f op => applyTransition f op.1 op.2) fs

/-- The file names of a data directory listing. -/
def storeNames (fs : List (String × TrackData)) : List String :=
  fs.map Prod.fst

/-- A name the store treats as an active (still tracked) record. -/
def isActiveName (x : String) : Prop :=
  pathSuffix x = ".pr" ∨ pathSuffix x = ".am"

instance (x : String) : Decidable (isActiveName x) := by
  unfold isActiveName; infer_instance

/-- Well-formedness of a data directory: file names are unique (it is a
directory listing) and no active record already has a leftover file under
one of the terminal names it could transition to (`os.rename` would
silently overwrite it). -/
def storeInv (fs : List (String × TrackData)) : Prop :=
  (storeNames fs).Nodup ∧
  ∀ x ∈ storeNames fs, isActiveName x →
    (x ++ ".sent") ∉ storeNames fs ∧ (x ++ ".discarded") ∉ storeNames fs

instance (fs : List (String × TrackData)) : Decidable (storeInv fs) := by
  unfold storeInv; infer_instance

/-- Valid transition sequences: each step renames a record that is
present and active at that point — exactly the records the orchestrator
obtains from `list_tracked` before renaming them. -/
inductive ValidOps : List (String × TrackData) → List (String × Marker) → Prop where
  | nil : ∀ fs, ValidOps fs []
  | cons : ∀ fs n m ops, n ∈ storeNames fs → isActiveName n →
      ValidOps (applyTransition fs n m) ops → ValidOps fs ((n, m) :: ops)

/-! ## Concrete instances used by witnesses and counterexamples -/

/-- A backend with no commits at all (the series-matching claims do not
consult git once the index cache is primed). -/
def gNull : GitBackend :=
  GitBackend.mk (fun _ => false) (fun _ => []) (fun _ => []) (fun _ => [])
    (fun _ _ _ => []) (fun _ => (0, "")) (fun _ => (0, "")) (0, "") []
    "me" "me@example.com" true

/-- A backend whose log window holds two commits with the same patch-id:
`c1` (newest, listed first) and `c2` (oldest, listed last). -/
def g3 : GitBackend :=
  GitBackend.mk (fun _ => false) (fun _ => []) (fun _ => []) (fun _ => [])
    (fun _ _ _ => ["c1 s1", "c2 s2"]) (fun _ => (0, "D")) (fun _ => (0, "p"))
    (0, "") [] "me" "me@example.com" true

/-- A backend where the ancestry path from commit `X` holds two merge
commits: `M2` (newest, closest to the tip) and `M1` (oldest, the one that
integrated `X`). -/
def g4 : GitBackend :=
  GitBackend.mk (fun c => c == "X") (fun _ => ["main"]) (fun _ => ["M2", "M1"])
    (fun _ => ["me@example.com"]) (fun _ _ _ => []) (fun _ => (0, ""))
    (fun _ => (0, "")) (0, "main") ["main"] "me" "me@example.com" true

/-- A backend for the pull-request author check: commit `X` is on `main`,
its integrating merge is `M`, and `M` was authored by the local user. -/
def g5 : GitBackend :=
  GitBackend.mk (fun c => c == "X") (fun _ => ["main"]) (fun _ => ["M"])
    (fun _ => ["alice@example.com"]) (fun _ _ _ => []) (fun _ => (0, ""))
    (fun _ => (0, "")) (0, "main") ["main"] "alice" "alice@example.com" true

/-- The record body used by the orchestrator scenarios. -/
def d6 : TrackData := TrackData.mk "s" "f" "a@b" []

/-- A backend on which the tracked pull request `X.pr` matches: `X`
exists on `main`, merged at `M`, authored by the local user. -/
def g6 : GitBackend :=
  GitBackend.mk (fun c => c == "X") (fun _ => ["main"]) (fun _ => ["M"])
    (fun _ => ["me@x"]) (fun _ _ _ => []) (fun _ => (0, "")) (fun _ => (0, ""))
    (0, "main") ["main"] "me" "me@x" true

/-- A series record body for the selection scenarios. -/
def dA : TrackData := TrackData.mk "t" "f" "x@y" []

/-- A backend whose one logged commit has a failing diff, so the
patch-id pipeline produces empty output. -/
def g9 : GitBackend :=
  GitBackend.mk (fun _ => false) (fun _ => []) (fun _ => []) (fun _ => [])
    (fun _ _ _ => ["c0 root"]) (fun _ => (1, "")) (fun _ => (0, "")) (0, "")
    [] "me" "me@example.com" true

/-! ## Helper lemmas -/

theorem length_filterMap_lt_of_none {α β : Type} (f : α → Option β) :
    ∀ l : List α, (∃ a ∈ l, f a = none) → (l.filterMap f).length < l.length := by
  intro l
  induction l with
  | nil => rintro ⟨a, ha, _⟩; exact absurd ha (List.not_mem_nil a)
  | cons x xs ih =>
    rintro ⟨a, ha, hnone⟩
    rcases List.mem_cons.mp ha with rfl | hmem
    · rw [List.filterMap_cons, hnone]
      exact Nat.lt_succ_of_le (List.length_filterMap_le f xs)
    · rw [List.filterMap_cons]
      cases hfx : f x with
      | none => exact Nat.lt_succ_of_lt (ih ⟨a, hmem, hnone⟩)
      | some b => simpa using Nat.succ_lt_succ (ih ⟨a, hmem, hnone⟩)

theorem length_filterMap_of_isSome {α β : Type} (f : α → Option β) :
    ∀ l : List α, (∀ a ∈ l, (f a).isSome) → (l.filterMap f).length = l.length := by
  intro l
  induction l with
  | nil => intro _; rfl
  | cons x xs ih =>
    intro h
    rw [List.filterMap_cons]
    cases hfx : f x with
    | none =>
      have := h x (List.mem_cons_self x xs)
      rw [hfx] at this; exact absurd this (by simp)
    | some b =>
      simp only [List.length_cons]
      exact congrArg Nat.succ (ih (fun a ha => h a (List.mem_cons_of_mem x ha)))

/-! ## Claim theorems -/

/-- C1: `auto_locate_series` is all-or-nothing: when at least one
`(label, patch-id)` entry of the tracked series has no entry in the
commit index, the result is `None`; and whenever a list is returned at
all, its length equals the length of the item's patch list (never a
shorter, partial list). -/
theorem auto_locate_series_all_or_nothing (g : GitBackend) (commits : CommitMap)
    (patches : List (String × String)) (branch since : String) :
    ((∃ p ∈ patches, mapLookup commits p.2 = none) →
      auto_locate_series g (some commits) patches branch since =
        some (none, commits)) ∧
    (∀ res cache l,
      auto_locate_series g (some commits) patches branch since = some (res, cache) →
      res = some l → l.length = patches.length) := by
  constructor
  · intro h
    have hlt := length_filterMap_lt_of_none (fun p => mapLookup commits p.2) patches h
    simp only [auto_locate_series, get_all_commits]
    rw [if_neg (Nat.ne_of_lt hlt)]
  · intro res cache l heq hres
    subst hres
    simp only [auto_locate_series, get_all_commits] at heq
    by_cases hlen :
        (patches.filterMap (fun p => mapLookup commits p.2)).length = patches.length
    · rw [if_pos hlen] at heq
      have h1 : some (patches.filterMap (fun p => mapLookup commits p.2)) = some l :=
        congrArg Prod.fst (Option.some_inj.mp heq)
      rw [← Option.some_inj.mp h1]
      exact hlen
    · rw [if_neg hlen] at heq
      have h1 : (none : Option (List CommitEntry)) = some l :=
        congrArg Prod.fst (Option.some_inj.mp heq)
      exact absurd h1 (by simp)

/-- C1 witness: a two-patch series whose second identity is missing from
a one-entry index resolves to `NoMatch`, and any returned list has the
item's length. -/
theorem auto_locate_series_all_or_nothing_witness :
    auto_locate_series gNull (some [("p1", ("c1", "s1"))])
      [("[1/2]", "p1"), ("[2/2]", "p2")] "main" "1.week" =
      some (none, [("p1", ("c1", "s1"))]) :=
  (auto_locate_series_all_or_nothing gNull [("p1", ("c1", "s1"))]
    [("[1/2]", "p1"), ("[2/2]", "p2")] "main" "1.week").1
    ⟨("[2/2]", "p2"), by decide, by decide⟩

/-- C2: when every `(label, patch-id)` entry of the series resolves in
the commit index, `auto_locate_series` returns exactly the resolved
`(commit_id, subject)` pairs in the order of the item's patch list. -/
theorem auto_locate_series_ordered (g : GitBackend) (commits : CommitMap)
    (patches : List (String × String)) (branch since : String)
    (h : ∀ p ∈ patches, (mapLookup commits p.2).isSome) :
    auto_locate_series g (some commits) patches branch since =
      some (some (patches.filterMap (fun p => mapLookup commits p.2)), commits) := by
  have hlen := length_filterMap_of_isSome (fun p => mapLookup commits p.2) patches h
  simp only [auto_locate_series, get_all_commits]
  rw [if_pos hlen]

/-- C2 witness: with both identities present — and stored in the index in
the opposite order — the series resolves to its own submission order. -/
theorem auto_locate_series_ordered_witness :
    auto_locate_series gNull (some [("p2", ("c2", "s2")), ("p1", ("c1", "s1"))])
      [("[1/2]", "p1"), ("[2/2]", "p2")] "main" "1.week" =
      some (some [("c1", "s1"), ("c2", "s2")],
        [("p2", ("c2", "s2")), ("p1", ("c1", "s1"))]) := by
  have := auto_locate_series_ordered gNull
    [("p2", ("c2", "s2")), ("p1", ("c1", "s1"))]
    [("[1/2]", "p1"), ("[2/2]", "p2")] "main" "1.week" (by decide)
  rw [this]
  rfl

/-- C5: for a pull request whose commit exists, is contained in the
target branch, and has an integrating merge commit, `auto_locate_pr`
returns `None` exactly when the merge commit's author email differs from
the local user's email, and the merge reference when they agree. The
first output line of `git show --format=%ae` is the author email; the
side condition `hstray` records the git fact that the remaining output
lines are diff text (each prefixed by a diff marker character) and hence
never equal to a configured email address. -/
theorem auto_locate_pr_author_guard (g : GitBackend) (pr branch mc author : String)
    (rest : List String)
    (hex : g.commitExists pr = true)
    (hbr : branch ∈ g.branchContains pr)
    (hmg : git_get_merge_id g pr = some mc)
    (hout : g.showAuthorLines mc = author :: rest)
    (hstray : g.userEmail ∉ rest) :
    (author ≠ g.userEmail → auto_locate_pr g pr branch = none) ∧
    (author = g.userEmail → auto_locate_pr g pr branch = some mc) := by
  have hne : ¬ (g.branchContains pr).length = 0 := by
    intro h0
    rw [List.length_eq_zero] at h0
    rw [h0] at hbr
    exact absurd hbr (List.not_mem_nil branch)
  have key : auto_locate_pr g pr branch =
      (if g.userEmail ∈ author :: rest then some mc else none) := by
    unfold auto_locate_pr
    rw [hex]
    simp only [if_true]
    rw [if_neg hne, if_pos hbr, hmg]
    show (if (g.showAuthorLines mc).length = 0 then none
      else if g.userEmail ∈ g.showAuthorLines mc then some mc else none) =
      if g.userEmail ∈ author :: rest then some mc else none
    rw [hout]
    simp only [List.length_cons]
    rw [if_neg (Nat.succ_ne_zero rest.length)]
  constructor
  · intro hauthor
    rw [key, if_neg]
    intro hmemc
    rcases List.mem_cons.mp hmemc with heq | hmem
    · exact hauthor heq.symm
    · exact hstray hmem
  · intro hauthor
    rw [key, if_pos]
    rw [← hauthor]
    exact List.mem_cons_self author rest

/-- C5 witness: commit `X` on `main`, merge `M` authored by
`alice@example.com`, local user `alice@example.com` — the pull request
matches with merge reference `M`. -/
theorem auto_locate_pr_author_guard_witness :
    auto_locate_pr g5 "X" "main" = some "M" :=
  (auto_locate_pr_author_guard g5 "X" "main" "M" "alice@example.com" []
    (by decide) (by decide) (by decide) rfl (by decide)).2 rfl

/-- C9: a commit in the log window whose diff step fails with empty
output makes `chunks[0]` in `get_all_commits` raise `IndexError`
(modelled as the `none` result): the index construction crashes instead
of skipping the commit, contradicting the claim. -/
theorem commit_index_crash_on_undefined_identity :
    g9.logLines g9.userEmail "1.week" "b" = ["c0 root"] ∧
    g9.patchIdRun (g9.revDiff "c0").2 = (0, "") ∧
    get_all_commits g9 none "b" "1.week" none = none := by
  refine ⟨rfl, rfl, by decide⟩

/-- C10: the `MY_COMMITS` memoization ignores every argument: once a
first call (with any arguments) has populated the cache, any later call —
on a different backend, branch, since-window and committer — returns the
first call's mapping unchanged. -/
theorem get_all_commits_memo_ignores_args (g1 g2 : GitBackend)
    (b1 s1 b2 s2 : String) (cm1 cm2 : Option String) (r glob : CommitMap)
    (h : get_all_commits g1 none b1 s1 cm1 = some (r, glob)) :
    get_all_commits g2 (some glob) b2 s2 cm2 = some (r, glob) := by
  have hrg : r = glob := by
    simp only [get_all_commits] at h
    split at h
    · exact (congrArg Prod.fst (Option.some_inj.mp h)).symm.trans
        (congrArg Prod.snd (Option.some_inj.mp h))
    · split at h
      · exact (congrArg Prod.fst (Option.some_inj.mp h)).symm.trans
          (congrArg Prod.snd (Option.some_inj.mp h))
      · exact absurd h (by simp)
  show some (glob, glob) = some (r, glob)
  rw [hrg]

/-- C10 witness: the cache primed by a first call on backend `g3` is
returned verbatim by a second call with a different backend, branch,
window and committer. -/
theorem get_all_commits_memo_ignores_args_witness :
    get_all_commits gNull (some [("p", ("c2", "s2"))]) "other" "2.weeks"
      (some "a@b") = some ([("p", ("c2", "s2"))], [("p", ("c2", "s2"))]) :=
  get_all_commits_memo_ignores_args g3 gNull "b" "1.week" "other" "2.weeks"
    none (some "a@b") [("p", ("c2", "s2"))] [("p", ("c2", "s2"))] (by decide)

/-- C3 counterexample: on a window holding two commits with the same
patch-id — `c1` newest (listed first), `c2` oldest (listed last) — the
built index retains `c2`, while the claimed most-recent-wins policy
(`spec_retained_commit`, first matching log line) picks `c1`. -/
theorem commit_index_not_most_recent :
    get_all_commits g3 none "b" "1.week" none =
      some ([("p", ("c2", "s2"))], [("p", ("c2", "s2"))]) ∧
    spec_retained_commit g3 g3.userEmail "1.week" "b" "p" = some ("c1", "s1") ∧
    mapLookup [("p", ("c2", "s2"))] "p" ≠
      spec_retained_commit g3 g3.userEmail "1.week" "b" "p" := by
  refine ⟨by decide, by decide, by decide⟩

/-- C4 counterexample: with two merge commits on the ancestry path of
`X` — `M2` newest (closest to the tip), `M1` oldest — `git_get_merge_id`
returns `M1`, not the claimed last commit of the walk from `X` toward the
tip (`claimed_merge_commit`, which is `M2`). -/
theorem merge_id_not_tipmost :
    git_get_merge_id g4 "X" = some "M1" ∧
    claimed_merge_commit g4 "X" = some "M2" ∧
    git_get_merge_id g4 "X" ≠ claimed_merge_commit g4 "X" := by
  refine ⟨rfl, rfl, by decide⟩

/-- C4 amended: `git_get_merge_id` returns the *first* (oldest) commit on
the ancestry path walked from the PR commit toward the tip — the last
line of the newest-first rev-list output — and `auto_locate_pr` returns
`None` whenever the ancestry path is empty. -/
theorem merge_id_oldest_on_path (g : GitBackend) (cid : String) :
    (∀ walkPath : List String, g.ancestryPath cid = walkPath.reverse →
      git_get_merge_id g cid = walkPath.head?) ∧
    (∀ branch, g.ancestryPath cid = [] →
      auto_locate_pr g cid branch = none) := by
  constructor
  · intro walkPath hpath
    unfold git_get_merge_id
    rw [hpath]
    cases walkPath with
    | nil => rfl
    | cons x xs =>
      rw [if_neg (by simp)]
      exact List.getLast?_reverse (x :: xs)
  · intro branch hnil
    unfold auto_locate_pr git_get_merge_id
    rw [hnil]
    simp

/-- C4 amended witness: on the two-merge path of `g4` the oldest commit
`M1` is returned, and on an empty ancestry path the locator yields
`NoMatch`. -/
theorem merge_id_oldest_on_path_witness :
    git_get_merge_id g4 "X" = some ("M1" : String) ∧
    auto_locate_pr gNull "X" "main" = none :=
  ⟨(merge_id_oldest_on_path g4 "X").1 ["M1", "M2"] (by decide),
   (merge_id_oldest_on_path gNull "X").2 "main" rfl⟩

/-- C6: `main` runs `check_stale_thanks` only *after*
`auto_thankanator` / `send_selected`. With a stale `.thanks` artifact
already in the output directory (which `check_stale_thanks` flags as
fatal), the auto path still writes a new artifact, transitions the
tracked item to `.sent` and exits 0 — the check is dead code there — and
the send path writes and transitions first and only then exits 1. -/
theorem stale_artifacts_not_checked_before_emission :
    check_stale_thanks ["stale.thanks"] = some 1 ∧
    ty_main g6 (TyState.mk ["stale.thanks"] [("X.pr", d6)]) true [] []
      (some "main") "1.week" =
      some (0, TyState.mk ["stale.thanks", "a_b_s.thanks"] [("X.pr.sent", d6)]) ∧
    ty_main g6 (TyState.mk ["stale.thanks"] [("a.am", dA)]) false ["1"] []
      none "1.week" =
      some (1, TyState.mk ["stale.thanks", "x_y_t.thanks"] [("a.am.sent", dA)]) := by
  refine ⟨rfl, by decide, by decide⟩

/-- C7 counterexample: with one tracked item, the selection entry `"0"`
is out of the displayed range `1..1` (`specValidSelB` rejects it), yet
`send_selected` does not abort: Python's negative indexing resolves
`int("0") - 1 = -1` to the last item, which is sent and renamed. -/
theorem selection_zero_not_rejected :
    specValidSelB 1 "0" = false ∧
    send_selected "me" "me@x" (TyState.mk [] [("a.am", dA)]) ["0"] =
      Except.ok (TyState.mk ["x_y_t.thanks"] [("a.am.sent", dA)]) := by
  exact ⟨by decide, rfl⟩

theorem foldlM_sel_none (tracked : List TrackedItem) :
    ∀ (sel : List String) (acc : List TrackedItem),
      (∃ num ∈ sel, selResolve tracked num = none) →
      List.foldlM
        (fun acc num =>
          match selResolve tracked num with
          | none => none
          | some item => some (acc ++ [item]))
        acc sel = none := by
  intro sel
  induction sel with
  | nil => rintro acc ⟨num, h, _⟩; exact absurd h (List.not_mem_nil num)
  | cons x xs ih =>
    rintro acc ⟨num, hmem, hnone⟩
    rw [List.foldlM_cons]
    rcases List.mem_cons.mp hmem with rfl | hmem2
    · rw [hnone]; rfl
    · cases hx : selResolve tracked x with
      | none => rfl
      | some item =>
        show List.foldlM _ (acc ++ [item]) xs = none
        exact ih (acc ++ [item]) ⟨num, hmem2, hnone⟩

/-- C7 amended: if the tracked list is non-empty and some selection entry
fails to resolve — it is non-numeric, or its value `v` lies outside
Python list-index reach (`1-n ≤ v ≤ n` for `n` tracked items; in-range
non-positive values silently select from the end instead of aborting) —
then `send_selected` exits 1 with the store untouched, and so does
`discard_selected` provided the special `_all` token (which bypasses
index validation entirely) is not among the entries: no tracked item is
renamed to a terminal suffix. -/
theorem selection_abort_before_transition (uname uemail : String) (st : TyState)
    (sel : List String)
    (hne : list_tracked uname uemail st.datadir ≠ [])
    (hbad : ∃ num ∈ sel,
      selResolve (list_tracked uname uemail st.datadir) num = none) :
    send_selected uname uemail st sel = Except.error (1, st) ∧
    ("_all" ∉ sel → discard_selected uname uemail st sel = (st, 1)) := by
  have hb : buildListing (list_tracked uname uemail st.datadir) sel = none := by
    unfold buildListing
    exact foldlM_sel_none _ sel [] hbad
  have hlen : ¬ (list_tracked uname uemail st.datadir).length = 0 := by
    intro h0; exact hne (List.length_eq_zero.mp h0)
  constructor
  · unfold send_selected
    rw [if_neg hlen, hb]
  · intro hall
    unfold discard_selected
    rw [if_neg hlen, if_neg hall, hb]

/-- C7 amended witness: a non-numeric entry aborts both selection
commands with exit 1 and the store unchanged. -/
theorem selection_abort_before_transition_witness :
    send_selected "me" "me@x" (TyState.mk [] [("a.am", dA)]) ["zz"] =
      Except.error (1, TyState.mk [] [("a.am", dA)]) ∧
    discard_selected "me" "me@x" (TyState.mk [] [("a.am", dA)]) ["zz"] =
      (TyState.mk [] [("a.am", dA)], 1) := by
  have h := selection_abort_before_transition "me" "me@x"
    (TyState.mk [] [("a.am", dA)]) ["zz"] (by decide)
    ⟨"zz", by decide, by decide⟩
  exact ⟨h.1, h.2 (by decide)⟩

theorem mapLookup_dictInsert_self (m : CommitMap) (k : String) (v : CommitEntry) :
    mapLookup (dictInsert m k v) k = some v := by
  induction m with
  | nil =>
    show (if k = k then some v else mapLookup [] k) = some v
    rw [if_pos rfl]
  | cons kv rest ih =>
    show mapLookup
      (if kv.1 = k then (k, v) :: rest else kv :: dictInsert rest k v) k = some v
    by_cases h : kv.1 = k
    · rw [if_pos h]
      show (if k = k then some v else mapLookup rest k) = some v
      rw [if_pos rfl]
    · rw [if_neg h]
      show (if kv.1 = k then some kv.2 else mapLookup (dictInsert rest k v) k) =
        some v
      rw [if_neg h]
      exact ih

theorem mapLookup_dictInsert_ne (m : CommitMap) (k k2 : String) (v : CommitEntry)
    (h : k2 ≠ k) : mapLookup (dictInsert m k v) k2 = mapLookup m k2 := by
  have hkk2 : ¬ (k = k2) := fun he => h he.symm
  induction m with
  | nil =>
    show (if k = k2 then some v else mapLookup [] k2) = mapLookup [] k2
    rw [if_neg hkk2]
  | cons kv rest ih =>
    show mapLookup
      (if kv.1 = k then (k, v) :: rest else kv :: dictInsert rest k v) k2 =
      mapLookup (kv :: rest) k2
    by_cases hk : kv.1 = k
    · rw [if_pos hk]
      show (if k = k2 then some v else mapLookup rest k2) =
        (if kv.1 = k2 then some kv.2 else mapLookup rest k2)
      rw [if_neg hkk2, if_neg (by rw [hk]; exact hkk2)]
    · rw [if_neg hk]
      show (if kv.1 = k2 then some kv.2 else mapLookup (dictInsert rest k v) k2) =
        (if kv.1 = k2 then some kv.2 else mapLookup rest k2)
      by_cases hk2 : kv.1 = k2
      · rw [if_pos hk2, if_pos hk2]
      · rw [if_neg hk2, if_neg hk2]
        exact ih

theorem foldlM_index_lookup (g : GitBackend) (pid : String) :
    ∀ (lines : List String) (m0 mr : CommitMap),
      List.foldlM (index_step g) m0 lines = some mr →
      mapLookup mr pid =
        (lines.reverse.findSome? (lineEntry g pid)).or (mapLookup m0 pid) := by
  intro lines
  induction lines with
  | nil =>
    intro m0 mr h
    cases h
    rfl
  | cons line rest ih =>
    intro m0 mr h
    rw [List.foldlM_cons] at h
    cases hstep : index_step g m0 line with
    | none => rw [hstep] at h; exact absurd h (by simp)
    | some m1 =>
      rw [hstep] at h
      have hrest : List.foldlM (index_step g) m1 rest = some mr := h
      have hih := ih m1 mr hrest
      unfold index_step at hstep
      rw [List.reverse_cons, List.findSome?_append]
      cases hsplit : splitMax1 line with
      | nil => rw [hsplit] at hstep; exact Option.noConfusion hstep
      | cons w ws =>
        cases ws with
        | nil => rw [hsplit] at hstep; exact Option.noConfusion hstep
        | cons w2 ws2 =>
          cases ws2 with
          | cons w3 ws3 => rw [hsplit] at hstep; exact Option.noConfusion hstep
          | nil =>
            rw [hsplit] at hstep
            have hstep2 : (match commitPatchId g w with
                | some pid1 => some (dictInsert m0 pid1 (w, w2))
                | none => none) = some m1 := hstep
            cases hpid : commitPatchId g w with
            | none => rw [hpid] at hstep2; exact Option.noConfusion hstep2
            | some pid0 =>
              rw [hpid] at hstep2
              have hm1 : m1 = dictInsert m0 pid0 (w, w2) :=
                (Option.some_inj.mp hstep2).symm
              have hline : lineEntry g pid line =
                  (if pid0 = pid then some (w, w2) else none) := by
                unfold lineEntry
                rw [hsplit]
                show (if commitPatchId g w = some pid
                    then some (w, w2) else none) = _
                rw [hpid]
                by_cases hpp : pid0 = pid
                · rw [if_pos (by rw [hpp]), if_pos hpp]
                · rw [if_neg (fun hc => hpp (Option.some_inj.mp hc)),
                    if_neg hpp]
              have hsingle : List.findSome? (lineEntry g pid) [line] =
                  (if pid0 = pid then some (w, w2) else none) := by
                rw [List.findSome?_cons, hline]
                by_cases hpp : pid0 = pid
                · rw [if_pos hpp]
                · rw [if_neg hpp]; rfl
              rw [hsingle]
              by_cases hpp : pid0 = pid
              · subst hpp
                rw [hm1, mapLookup_dictInsert_self] at hih
                rw [hih, if_pos rfl]
                cases List.findSome? (lineEntry g pid0) rest.reverse <;> rfl
              · rw [hm1, mapLookup_dictInsert_ne m0 pid0 pid (w, w2)
                  (fun he => hpp he.symm)] at hih
                rw [hih, if_neg hpp]
                cases List.findSome? (lineEntry g pid) rest.reverse <;> rfl

/-- C3 amended: in the index built by `get_all_commits`, an identity hit
by several commits of the window retains the *last processed* log line —
the oldest matching commit, since `git log` lists newest first (each
later, older line overwrites the dict entry): the lookup equals the first
match over the reversed log. -/
theorem commit_index_last_wins_oldest (g : GitBackend) (branch since pid : String)
    (m c : CommitMap)
    (h : get_all_commits g none branch since none = some (m, c)) :
    mapLookup m pid =
      ((g.logLines g.userEmail since branch).reverse).findSome?
        (lineEntry g pid) := by
  simp only [get_all_commits] at h
  split at h
  · next hlen =>
    have hm : ([] : CommitMap) = m := congrArg Prod.fst (Option.some_inj.mp h)
    have hl : g.logLines g.userEmail since branch = [] :=
      List.length_eq_zero.mp hlen
    rw [← hm, hl]
    rfl
  · next hlen =>
    split at h
    · next mm hfold =>
      have hm : mm = m := congrArg Prod.fst (Option.some_inj.mp h)
      rw [← hm]
      have := foldlM_index_lookup g pid _ [] mm hfold
      rw [this]
      cases List.findSome? (lineEntry g pid)
        (g.logLines g.userEmail since branch).reverse <;> rfl
    · exact absurd h (by simp)

/-- C3 amended witness: on the two-commit collision window of `g3` the
retained entry is the oldest commit `c2`, the first match of the
reversed log. -/
theorem commit_index_last_wins_oldest_witness :
    mapLookup [("p", ("c2", "s2"))] "p" =
      ((g3.logLines g3.userEmail "1.week" "b").reverse).findSome?
        (lineEntry g3 "p") :=
  commit_index_last_wins_oldest g3 "b" "1.week" "p"
    [("p", ("c2", "s2"))] [("p", ("c2", "s2"))] (by decide)

theorem str_data_append (a b : String) : (a ++ b).data = a.data ++ b.data := rfl

theorem str_eq_of_data (a b : String) (h : a.data = b.data) : a = b := by
  cases a; cases b; cases h; rfl

theorem lastDotSuffix_isSuffix :
    ∀ (l : List Char) (s : List Char), lastDotSuffix l = some s → ∃ p, l = p ++ s := by
  intro l
  induction l with
  | nil => intro s h; exact Option.noConfusion h
  | cons c rest ih =>
    intro s h
    unfold lastDotSuffix at h
    cases hrec : lastDotSuffix rest with
    | some s2 =>
      rw [hrec] at h
      obtain ⟨p, hp⟩ := ih s2 hrec
      rw [Option.some_inj.mp h] at hp
      exact ⟨c :: p, by rw [hp]; rfl⟩
    | none =>
      rw [hrec] at h
      have h2 : (if c = '.' then some (c :: rest) else none) = some s := h
      by_cases hc : c = '.'
      · rw [if_pos hc] at h2
        refine ⟨[], ?_⟩
        rw [List.nil_append]
        exact Option.some_inj.mp h2
      · rw [if_neg hc] at h2
        exact Option.noConfusion h2

theorem isActiveName_data (x : String) (h : isActiveName x) :
    (∃ p, x.data = p ++ ".pr".data) ∨ (∃ p, x.data = p ++ ".am".data) := by
  cases h with
  | inl h =>
    left
    unfold pathSuffix at h
    cases hls : lastDotSuffix x.data with
    | none =>
      rw [hls] at h
      have h2 : ("" : String) = ".pr" := h
      exact absurd h2 (by decide)
    | some s =>
      rw [hls] at h
      have h2 : (if s.length < x.data.length ∧ 1 < s.length
          then String.mk s else "") = ".pr" := h
      by_cases hcond : s.length < x.data.length ∧ 1 < s.length
      · rw [if_pos hcond] at h2
        have hs : s = ".pr".data := congrArg String.data h2
        rw [← hs]
        exact lastDotSuffix_isSuffix x.data s hls
      · rw [if_neg hcond] at h2
        exact absurd h2 (by decide)
  | inr h =>
    right
    unfold pathSuffix at h
    cases hls : lastDotSuffix x.data with
    | none =>
      rw [hls] at h
      have h2 : ("" : String) = ".am" := h
      exact absurd h2 (by decide)
    | some s =>
      rw [hls] at h
      have h2 : (if s.length < x.data.length ∧ 1 < s.length
          then String.mk s else "") = ".am" := h
      by_cases hcond : s.length < x.data.length ∧ 1 < s.length
      · rw [if_pos hcond] at h2
        have hs : s = ".am".data := congrArg String.data h2
        rw [← hs]
        exact lastDotSuffix_isSuffix x.data s hls
      · rw [if_neg hcond] at h2
        exact absurd h2 (by decide)

theorem isActiveName_getLast (x : String) (h : isActiveName x) :
    x.data.getLast? = some 'r' ∨ x.data.getLast? = some 'm' := by
  rcases isActiveName_data x h with ⟨p, hp⟩ | ⟨p, hp⟩
  · left; rw [hp, List.getLast?_append]; rfl
  · right; rw [hp, List.getLast?_append]; rfl

theorem append_marker_getLast (y : String) (m : Marker) :
    (y ++ markerStr m).data.getLast? = some 't' ∨
    (y ++ markerStr m).data.getLast? = some 'd' := by
  cases m with
  | sent =>
    left
    rw [str_data_append, List.getLast?_append]
    rfl
  | discarded =>
    right
    rw [str_data_append, List.getLast?_append]
    rfl

theorem isActiveName_ne_append_marker (x y : String) (m : Marker)
    (h : isActiveName x) : x ≠ y ++ markerStr m := by
  intro he
  have h1 := isActiveName_getLast x h
  have h2 := append_marker_getLast y m
  rw [he] at h1
  rcases h1 with h1 | h1 <;> rcases h2 with h2 | h2 <;> rw [h1] at h2 <;>
    exact absurd h2 (by decide)

theorem append_marker_inj (n1 n2 : String) (m1 m2 : Marker)
    (h : n1 ++ markerStr m1 = n2 ++ markerStr m2) : n1 = n2 ∧ m1 = m2 := by
  have hdata : n1.data ++ (markerStr m1).data = n2.data ++ (markerStr m2).data := by
    have := congrArg String.data h
    rw [str_data_append, str_data_append] at this
    exact this
  cases m1 <;> cases m2
  · exact ⟨str_eq_of_data n1 n2 (List.append_cancel_right hdata), rfl⟩
  · exfalso
    have h1 := congrArg List.getLast? hdata
    rw [List.getLast?_append, List.getLast?_append] at h1
    have h2 : (some 't' : Option Char) = some 'd' := h1
    exact absurd h2 (by decide)
  · exfalso
    have h1 := congrArg List.getLast? hdata
    rw [List.getLast?_append, List.getLast?_append] at h1
    have h2 : (some 'd' : Option Char) = some 't' := h1
    exact absurd h2 (by decide)
  · exact ⟨str_eq_of_data n1 n2 (List.append_cancel_right hdata), rfl⟩

theorem storeNames_applyTransition (fs : List (String × TrackData)) (n : String)
    (m : Marker) :
    storeNames (applyTransition fs n m) =
      (storeNames fs).map (fun x => if x = n then n ++ markerStr m else x) := by
  induction fs with
  | nil => rfl
  | cons f rest ih =>
    show (if f.1 = n then ((n ++ markerStr m, f.2) : String × TrackData) else f).1 ::
        storeNames (applyTransition rest n m) =
      (if f.1 = n then n ++ markerStr m else f.1) ::
        (storeNames rest).map (fun x => if x = n then n ++ markerStr m else x)
    rw [ih]
    by_cases h : f.1 = n
    · rw [if_pos h, if_pos h]
    · rw [if_neg h, if_neg h]

theorem storeInv_targets (fs : List (String × TrackData)) (n : String)
    (hinv : storeInv fs) (hn : n ∈ storeNames fs) (ha : isActiveName n) :
    ∀ mk2 : Marker, (n ++ markerStr mk2) ∉ storeNames fs := by
  intro mk2
  cases mk2 with
  | sent => exact (hinv.2 n hn ha).1
  | discarded => exact (hinv.2 n hn ha).2

theorem storeInv_applyTransition (fs : List (String × TrackData)) (n : String)
    (m : Marker) (hinv : storeInv fs) (hn : n ∈ storeNames fs)
    (ha : isActiveName n) : storeInv (applyTransition fs n m) := by
  have htabs := storeInv_targets fs n hinv hn ha
  constructor
  · rw [storeNames_applyTransition]
    refine List.Nodup.map_on ?_ hinv.1
    intro x hx y hy hf
    by_cases hxn : x = n <;> by_cases hyn : y = n
    · rw [hxn, hyn]
    · rw [if_pos hxn, if_neg hyn] at hf
      rw [← hf] at hy
      exact absurd hy (htabs m)
    · rw [if_neg hxn, if_pos hyn] at hf
      rw [hf] at hx
      exact absurd hx (htabs m)
    · rw [if_neg hxn, if_neg hyn] at hf
      exact hf
  · intro x hx hax
    rw [storeNames_applyTransition] at hx
    obtain ⟨y, hy, hfy⟩ := List.mem_map.mp hx
    by_cases hyn : y = n
    · rw [if_pos hyn] at hfy
      rw [← hfy] at hax
      exact absurd rfl (isActiveName_ne_append_marker _ n m hax)
    · rw [if_neg hyn] at hfy
      have hxy : x = y := hfy.symm
      subst hxy
      have hbase := storeInv_targets fs x hinv hy hax
      constructor
      · intro hmem
        rw [storeNames_applyTransition] at hmem
        obtain ⟨z, hz, hfz⟩ := List.mem_map.mp hmem
        by_cases hzn : z = n
        · rw [if_pos hzn] at hfz
          obtain ⟨hx1, -⟩ := append_marker_inj n x m Marker.sent hfz
          rw [← hx1] at hyn
          exact hyn rfl
        · rw [if_neg hzn] at hfz
          rw [hfz] at hz
          exact absurd hz (hbase Marker.sent)
      · intro hmem
        rw [storeNames_applyTransition] at hmem
        obtain ⟨z, hz, hfz⟩ := List.mem_map.mp hmem
        by_cases hzn : z = n
        · rw [if_pos hzn] at hfz
          obtain ⟨hx1, -⟩ := append_marker_inj n x m Marker.discarded hfz
          rw [← hx1] at hyn
          exact hyn rfl
        · rw [if_neg hzn] at hfz
          rw [hfz] at hz
          exact absurd hz (hbase Marker.discarded)

theorem transition_persist (n : String) (hactive : isActiveName n) :
    ∀ (ops : List (String × Marker)) (fs : List (String × TrackData)),
      storeInv fs → ValidOps fs ops → n ∉ storeNames fs →
      n ∉ storeNames (applyOps fs ops) ∧
      (∀ mk2 : Marker, (n ++ markerStr mk2) ∈ storeNames (applyOps fs ops) ↔
        (n ++ markerStr mk2) ∈ storeNames fs) := by
  intro ops
  induction ops with
  | nil =>
    intro fs _ _ hout
    exact ⟨hout, fun _ => Iff.rfl⟩
  | cons op rest ih =>
    intro fs hinv hv hout
    cases hv with
    | cons _ n0 m0 _ hn0 ha0 hv2 =>
      have hinv2 := storeInv_applyTransition fs n0 m0 hinv hn0 ha0
      have hstep : applyOps fs ((n0, m0) :: rest) =
          applyOps (applyTransition fs n0 m0) rest := rfl
      have hout2 : n ∉ storeNames (applyTransition fs n0 m0) := by
        intro hmem
        rw [storeNames_applyTransition] at hmem
        obtain ⟨y, hy, hfy⟩ := List.mem_map.mp hmem
        by_cases hyn : y = n0
        · rw [if_pos hyn] at hfy
          exact isActiveName_ne_append_marker n n0 m0 hactive hfy.symm
        · rw [if_neg hyn] at hfy
          rw [hfy] at hy
          exact hout hy
      have hmk2 : ∀ mk2 : Marker,
          (n ++ markerStr mk2) ∈ storeNames (applyTransition fs n0 m0) ↔
          (n ++ markerStr mk2) ∈ storeNames fs := by
        intro mk2
        constructor
        · intro hmem
          rw [storeNames_applyTransition] at hmem
          obtain ⟨z, hz, hfz⟩ := List.mem_map.mp hmem
          by_cases hzn : z = n0
          · rw [if_pos hzn] at hfz
            obtain ⟨hne, -⟩ := append_marker_inj n0 n m0 mk2 hfz
            rw [hne] at hn0
            exact absurd hn0 hout
          · rw [if_neg hzn] at hfz
            rw [← hfz]
            exact hz
        · intro hmem
          rw [storeNames_applyTransition]
          refine List.mem_map.mpr ⟨n ++ markerStr mk2, hmem, ?_⟩
          rw [if_neg]
          intro heq
          exact isActiveName_ne_append_marker n0 n mk2 ha0 heq.symm
      obtain ⟨hA, hB⟩ := ih (applyTransition fs n0 m0) hinv2 hv2 hout2
      rw [hstep]
      exact ⟨hA, fun mk2 => (hB mk2).trans (hmk2 mk2)⟩

theorem list_tracked_trackfile (uname uemail : String)
    (fs : List (String × TrackData)) :
    ∀ it ∈ list_tracked uname uemail fs,
      it.trackfile ∈ storeNames fs ∧ isActiveName it.trackfile := by
  intro it hit
  unfold list_tracked at hit
  obtain ⟨f, hf, hsome⟩ := List.mem_filterMap.mp hit
  by_cases hact : pathSuffix f.1 = ".pr" ∨ pathSuffix f.1 = ".am"
  · rw [if_pos hact] at hsome
    have hitf : it.trackfile = f.1 := by
      rw [← Option.some_inj.mp hsome]
    rw [hitf]
    exact ⟨List.mem_map.mpr ⟨f, hf, rfl⟩, hact⟩
  · rw [if_neg hact] at hsome
    exact Option.noConfusion hsome

/-- C8: after any valid sequence of lifecycle transitions on a
well-formed store, each transitioned item's original name is gone from
the directory, its backing record exists under exactly the one terminal
name of the marker used (no record under the other terminal marker), and
`list_tracked` excludes the item: no listed item's trackfile is the
transitioned name or its terminal name. -/
theorem store_transitions_terminal (uname uemail : String) :
    ∀ (ops : List (String × Marker)) (fs : List (String × TrackData))
      (n : String) (mtag : Marker),
      storeInv fs → ValidOps fs ops → (n, mtag) ∈ ops →
      n ∉ storeNames (applyOps fs ops) ∧
      (n ++ markerStr mtag) ∈ storeNames (applyOps fs ops) ∧
      (∀ mk2 : Marker,
        (n ++ markerStr mk2) ∈ storeNames (applyOps fs ops) → mk2 = mtag) ∧
      (∀ it ∈ list_tracked uname uemail (applyOps fs ops),
        it.trackfile ≠ n ∧ it.trackfile ≠ n ++ markerStr mtag) := by
  intro ops
  induction ops with
  | nil =>
    intro fs n mtag _ _ hmem
    exact absurd hmem (List.not_mem_nil (n, mtag))
  | cons op rest ih =>
    intro fs n mtag hinv hv hmem
    cases hv with
    | cons _ n0 m0 _ hn0 ha0 hv2 =>
      have hinv2 := storeInv_applyTransition fs n0 m0 hinv hn0 ha0
      have hstep : applyOps fs ((n0, m0) :: rest) =
          applyOps (applyTransition fs n0 m0) rest := rfl
      rcases List.mem_cons.mp hmem with heq | hmem2
      · -- this very step transitions (n, mtag)
        have hn : n = n0 := congrArg Prod.fst heq
        have hm : mtag = m0 := congrArg Prod.snd heq
        subst hn; subst hm
        have htabs := storeInv_targets fs n hinv hn0 ha0
        have hout2 : n ∉ storeNames (applyTransition fs n mtag) := by
          intro hmemn
          rw [storeNames_applyTransition] at hmemn
          obtain ⟨y, hy, hfy⟩ := List.mem_map.mp hmemn
          by_cases hyn : y = n
          · rw [if_pos hyn] at hfy
            exact isActiveName_ne_append_marker n n mtag ha0 hfy.symm
          · rw [if_neg hyn] at hfy
            exact hyn hfy
        have hin2 : (n ++ markerStr mtag) ∈
            storeNames (applyTransition fs n mtag) := by
          rw [storeNames_applyTransition]
          exact List.mem_map.mpr ⟨n, hn0, if_pos rfl⟩
        have hother2 : ∀ mk2 : Marker, mk2 ≠ mtag →
            (n ++ markerStr mk2) ∉ storeNames (applyTransition fs n mtag) := by
          intro mk2 hne hmemo
          rw [storeNames_applyTransition] at hmemo
          obtain ⟨z, hz, hfz⟩ := List.mem_map.mp hmemo
          by_cases hzn : z = n
          · rw [if_pos hzn] at hfz
            obtain ⟨-, hmm⟩ := append_marker_inj n n mtag mk2 hfz
            exact hne hmm.symm
          · rw [if_neg hzn] at hfz
            rw [hfz] at hz
            exact absurd hz (htabs mk2)
        obtain ⟨hA, hB⟩ := transition_persist n ha0 rest
          (applyTransition fs n mtag) hinv2 hv2 hout2
        rw [hstep]
        refine ⟨hA, (hB mtag).mpr hin2, ?_, ?_⟩
        · intro mk2 hmemf
          by_cases hne : mk2 = mtag
          · exact hne
          · exact absurd ((hB mk2).mp hmemf) (hother2 mk2 hne)
        · intro it hit
          obtain ⟨hmemit, hactit⟩ :=
            list_tracked_trackfile uname uemail _ it hit
          constructor
          · intro hf; rw [hf] at hmemit; exact hA hmemit
          · exact isActiveName_ne_append_marker it.trackfile n mtag hactit
      · -- (n, mtag) is transitioned later in the sequence
        have := ih (applyTransition fs n0 m0) n mtag hinv2 hv2 hmem2
        rw [hstep]
        exact this

/-- C8 witness: transitioning the single active record `a.am` to sent
leaves no `a.am`, exactly the terminal record `a.am.sent`, and an empty
active listing. -/
theorem store_transitions_terminal_witness :
    "a.am" ∉ storeNames (applyOps [("a.am", dA)] [("a.am", Marker.sent)]) ∧
    ("a.am" ++ markerStr Marker.sent) ∈
      storeNames (applyOps [("a.am", dA)] [("a.am", Marker.sent)]) ∧
    (∀ mk2 : Marker, ("a.am" ++ markerStr mk2) ∈
      storeNames (applyOps [("a.am", dA)] [("a.am", Marker.sent)]) →
      mk2 = Marker.sent) ∧
    (∀ it ∈ list_tracked "me" "me@x"
        (applyOps [("a.am", dA)] [("a.am", Marker.sent)]),
      it.trackfile ≠ "a.am" ∧ it.trackfile ≠ "a.am" ++ markerStr Marker.sent) :=
  store_transitions_terminal "me" "me@x" [("a.am", Marker.sent)] [("a.am", dA)]
    "a.am" Marker.sent (by decide)
    (ValidOps.cons _ _ _ _ (by decide) (by decide) (ValidOps.nil _))
    (List.mem_cons_self _ _)

end B4Ty
